import Mathlib

/-!
Verification development for the word-indexing service (`WordService` in
`src/services/word.service.ts`).

The TypeScript service is shallowly embedded as pure Lean functions:

* JS strings are Lean `String` (a wrapper around `List Char`); character
  offsets are `Nat` counted in characters from 0.  `String.prototype.toLowerCase`
  on article content is modelled per code point by `jsLowerChar`, which maps a
  code point to the *list* of code points of its Unicode lowercase — exactly on
  ASCII and on the two case mappings that leave the Latin-1 `\w` fragment
  (U+0130 → U+0069 U+0307, U+212A → U+006B), identity elsewhere.  Theorems
  evaluate `wordPositions` only on content inside that exactly-modelled
  fragment.  Query-word normalization (`jsToLower`) keeps the per-character
  ASCII mapping; it occurs on both sides of every statement that uses it.
* The regex `\w` (letters, digits, underscore, ASCII) is `isWordChar`;
  `content.toLowerCase().split(/\b/)` is `splitRuns` applied to the lowercased
  character list — JS `split` on a word-boundary regex yields exactly the
  maximal runs of equal word-char classification.
* JS objects used as dictionaries are association lists keeping JS insertion
  order (`jsObjPush`, `jsObjSet`).
* The Prisma tables are lists of rows (`DB`); Redis is an association list of
  `(key, value, ttl)` entries (`Cache`).  `redis.del(k)` removes exactly the
  entry whose key equals `k` (Redis `DEL` takes literal key names; this is also
  the `del(key)` interface the spec assumes of the cache collaborator).
* `p-retry`-wrapped calls are deterministic in outcome: a `Behavior` record
  says, per operation class, whether the operation succeeds after retries or
  exhausts them.  Thrown errors are `Except.error`, logger calls are collected
  in a `LogEntry` list.
* JS `Array.prototype.sort()` (default comparator: code-unit lexicographic
  comparison) is `sortJS`, an insertion sort over the structural code-point
  comparator `strLtb`; the in-place mutation of the caller's array is exposed
  as the `wordsAfter` field of `findWords`'s result.
-/

namespace WordService

/-- JS regex `\w` without the `u` flag: ASCII letters, digits and underscore. -/
def isWordChar (c : Char) : Bool :=
  (97 ≤ c.toNat && c.toNat ≤ 122) || (65 ≤ c.toNat && c.toNat ≤ 90) ||
    (48 ≤ c.toNat && c.toNat ≤ 57) || (c.toNat == 95)

/-- Prepend a character to a run decomposition, extending the first run when the
word-char classification matches (helper for `splitRuns`). -/
def consRun (c : Char) : List (List Char) → List (List Char)
  | [] => [[c]]
  | [] :: rest => [c] :: [] :: rest
  | (d :: ds) :: rest =>
    if isWordChar c == isWordChar d then (c :: d :: ds) :: rest
    else [c] :: (d :: ds) :: rest

/-- Decomposition of a character list into maximal runs of equal word-char
classification: the segments produced by JS `split(/\b/)`. -/
def splitRuns : List Char → List (List Char)
  | [] => []
  | c :: cs => consRun c (splitRuns cs)

/-- `wordPositions[word].push(position)` with JS object semantics: create the
key at the end on first touch, otherwise append to the existing entry. -/
def jsObjPush (m : List (String × List Nat)) (w : String) (p : Nat) :
    List (String × List Nat) :=
  match m with
  | [] => [(w, [p])]
  | (w', ps) :: rest =>
    if w' == w then (w', ps ++ [p]) :: rest else (w', ps) :: jsObjPush rest w p

/-- The loop of `processArticle`: walk the segments, record the start offset of
every segment matching `/^\w+$/`, and advance `position` by the segment
length. -/
def collectWordPositions : List (List Char) → Nat → List (String × List Nat) →
    List (String × List Nat)
  | [], _, m => m
  | seg :: rest, pos, m =>
    collectWordPositions rest (pos + seg.length)
      (if !seg.isEmpty && seg.all isWordChar then jsObjPush m ⟨seg⟩ pos else m)

/-- `String.prototype.toLowerCase`, per code point: a character becomes the
list of characters of its Unicode lowercase mapping.  The mapping is exact on
ASCII (A–Z shift by 32, everything else fixed) and on the two non-ASCII case
mappings whose image meets the `\w` fragment: İ (U+0130) → `i` followed by the
combining dot above (U+0307, a length-changing mapping), and the Kelvin sign
(U+212A) → `k`.  Other code points are left unchanged; every theorem below
evaluates `wordPositions` only on content inside this exactly-modelled
fragment. -/
def jsLowerChar (c : Char) : List Char :=
  if c.toNat ≥ 65 ∧ c.toNat ≤ 90 then [Char.ofNat (c.toNat + 32)]
  else if c.toNat = 304 then [Char.ofNat 105, Char.ofNat 775]
  else if c.toNat = 8490 then [Char.ofNat 107]
  else [c]

/-- The character list of `content.toLowerCase()`: each code point replaced by
its lowercase mapping, concatenated. -/
def jsToLowerData : List Char → List Char
  | [] => []
  | c :: cs => jsLowerChar c ++ jsToLowerData cs

/-- The positional map built by `processArticle`:
`content.toLowerCase().split(/\b/)` followed by the `/^\w+$/`-filtered
position-accumulating loop.  Both the words and the offsets come from the
lowercased string, not the original text. -/
def wordPositions (content : String) : List (String × List Nat) :=
  collectWordPositions (splitRuns (jsToLowerData content.data)) 0 []

/-- Word tokens of one run decomposition: each maximal word-constituent run is
emitted lowercased together with its start offset (helper for `specTokens`). -/
def runTokens : List (List Char) → Nat → List (String × Nat)
  | [], _ => []
  | seg :: rest, pos =>
    if !seg.isEmpty && seg.all isWordChar then
      (⟨seg.map Char.toLower⟩, pos) :: runTokens rest (pos + seg.length)
    else runTokens rest (pos + seg.length)

/-- The spec's tokenizer (§4.1): the word tokens of the original text — the
lowercased maximal runs of word-constituent characters, each with its starting
character offset in the original text, counted from 0. -/
def specTokens (content : String) : List (String × Nat) :=
  runTokens (splitRuns content.data) 0

/-- The spec's occurrence aggregation (§4.2): fold the tokenizer output into a
map from word to its offsets in first-to-last order. -/
def specPositionalMap (content : String) : List (String × List Nat) :=
  (specTokens content).foldl (fun m t => jsObjPush m t.1 t.2) []

/-- `String.prototype.toLowerCase` as used for query-word normalization,
modelled per character on the ASCII fragment.  This abstraction appears on
both sides of every statement that mentions it. -/
def jsToLower (s : String) : String := ⟨s.data.map Char.toLower⟩

/-- Code-point lexicographic strict comparison of character lists: the order JS
`Array.prototype.sort()`'s default comparator induces on (BMP) strings. -/
def strLtb : List Char → List Char → Bool
  | [], [] => false
  | [], _ :: _ => true
  | _ :: _, [] => false
  | a :: as, b :: bs =>
    if a.toNat < b.toNat then true
    else if b.toNat < a.toNat then false
    else strLtb as bs

/-- Non-strict string comparison derived from `strLtb`. -/
def strLeb (a b : String) : Bool := !strLtb b.data a.data

/-- Insert a string into a sorted list (helper for `sortJS`). -/
def orderedInsertJS (w : String) : List String → List String
  | [] => [w]
  | x :: xs => if strLeb w x then w :: x :: xs else x :: orderedInsertJS w xs

/-- JS `Array.prototype.sort()` with the default (code-unit lexicographic)
comparator, as a pure function. -/
def sortJS : List String → List String
  | [] => []
  | w :: ws => orderedInsertJS w (sortJS ws)

/-- The order `sortJS` sorts by, as a relation. -/
def rLe (a b : String) : Prop := strLeb a b = true

/-- The cache key of `findWords`: `` `find-words:${words.sort().join(',')}` ``.
The words are sorted but neither lowercased nor deduplicated. -/
def findWordsKey (words : List String) : String :=
  "find-words:" ++ String.intercalate "," (sortJS words)

/-- One row of the `word_index` table. -/
structure WordIndexRow where
  articleId : String
  word : String
  positions : List Nat
deriving DecidableEq, Repr

/-- One row of the `word_article_count` table. -/
structure WordArticleCountRow where
  articleId : String
  word : String
  count : Nat
deriving DecidableEq, Repr

/-- The persistent store: the two word tables, as row lists. -/
structure DB where
  wordIndex : List WordIndexRow
  wordArticleCount : List WordArticleCountRow
deriving DecidableEq, Repr

/-- One `{article_id, offsets}` element of a `findWords` result. -/
structure FWEntry where
  article_id : String
  offsets : List Nat
deriving DecidableEq, Repr

/-- A JSON value this service ever caches: a `findWords` mapping or a
`{article_id, count}` object. -/
inductive CacheVal where
  | fw (m : List (String × List FWEntry))
  | mcw (article_id : String) (count : Nat)
deriving DecidableEq, Repr

/-- The Redis cache: entries `(key, value, ttlSeconds)`. -/
abbrev Cache := List (String × CacheVal × Nat)

/-- Redis `GET`. -/
def cacheGet (cache : Cache) (key : String) : Option CacheVal :=
  (cache.find? (fun e => e.1 == key)).map (fun e => e.2.1)

/-- Redis `SET key value EX ttl`. -/
def cacheSet (cache : Cache) (key : String) (v : CacheVal) (ttl : Nat) : Cache :=
  cache.filter (fun e => !(e.1 == key)) ++ [(key, v, ttl)]

/-- Redis `DEL key`: removes exactly the entry with this literal key. -/
def cacheDel (cache : Cache) (key : String) : Cache :=
  cache.filter (fun e => !(e.1 == key))

/-- Structural prefix test on character lists. -/
def isPrefixList : List Char → List Char → Bool
  | [], _ => true
  | _ :: _, [] => false
  | a :: as, b :: bs => a == b && isPrefixList as bs

/-- Does a key match the glob pattern `top-words:*`? -/
def matchesTopWordsPattern (key : String) : Bool :=
  isPrefixList "top-words:".data key.data

/-- A logger call. -/
inductive LogEntry where
  | warn (msg : String)
  | error (msg : String)
deriving DecidableEq, Repr

/-- Deterministic outcome of each retried operation class: `true` means the
operation succeeds (possibly after retries), `false` means every retry attempt
fails and `pRetry` rejects. -/
structure Behavior where
  cacheGetOk : Bool
  cacheSetOk : Bool
  cacheDelOk : Bool
  storeOk : Bool
deriving DecidableEq, Repr

/-- `getCachedResult`: on retry exhaustion, log a warning and return `null`
(a cache miss); never throws. -/
def getCachedResult (beh : Behavior) (cache : Cache) (cacheKey : String) :
    Option CacheVal × List LogEntry :=
  if beh.cacheGetOk then (cacheGet cache cacheKey, [])
  else (none, [.warn "Failed to get cached result after retries"])

/-- `setCachedResult`: writes with TTL 600; on retry exhaustion, log a warning
and swallow the failure; never throws. -/
def setCachedResult (beh : Behavior) (cache : Cache) (cacheKey : String)
    (data : CacheVal) : Cache × List LogEntry :=
  if beh.cacheSetOk then (cacheSet cache cacheKey data 600, [])
  else (cache, [.warn "Failed to set cached result after retries"])

/-- `prisma.wordIndex.findMany({where: {word: {in: ws}}})`. -/
def storeFindWordIndexes (db : DB) (ws : List String) : List WordIndexRow :=
  db.wordIndex.filter (fun r => ws.contains r.word)

/-- The `{article_id, offsets}` list for one word from a row set. -/
def entriesForWord (rows : List WordIndexRow) (w : String) : List FWEntry :=
  (rows.filter (fun r => r.word == w)).map (fun r => ⟨r.articleId, r.positions⟩)

/-- `results[k] = v` with JS object semantics: overwrite in place or append. -/
def jsObjSet (m : List (String × List FWEntry)) (k : String) (v : List FWEntry) :
    List (String × List FWEntry) :=
  match m with
  | [] => [(k, v)]
  | (k', v') :: rest =>
    if k' == k then (k', v) :: rest else (k', v') :: jsObjSet rest k v

/-- The result-formatting loop of `findWords`. -/
def formatResults (rows : List WordIndexRow) (normalizedWords : List String) :
    List (String × List FWEntry) :=
  normalizedWords.foldl (fun m w => jsObjSet m w (entriesForWord rows w)) []

/-- The authoritative (store-derived) `findWords` result for a query. -/
def findWordsFromStore (db : DB) (words : List String) :
    List (String × List FWEntry) :=
  formatResults (storeFindWordIndexes db ((sortJS words).map jsToLower))
    ((sortJS words).map jsToLower)

/-- Lookup in a JS-object association list. -/
def lookupAssoc (m : List (String × List FWEntry)) (k : String) :
    Option (List FWEntry) :=
  (m.find? (fun e => e.1 == k)).map (fun e => e.2)

/-- Observable outcome of a `findWords` call.  `wordsAfter` is the final
content of the caller's `words` array (mutated in place by `words.sort()`). -/
structure FindWordsOut where
  result : Except Unit CacheVal
  cache : Cache
  logs : List LogEntry
  wordsAfter : List String

/-- `WordService.findWords`. -/
def findWords (beh : Behavior) (db : DB) (cache : Cache) (words : List String) :
    FindWordsOut :=
  let sorted := sortJS words
  let cacheKey := findWordsKey words
  let gr := getCachedResult beh cache cacheKey
  match gr.1 with
  | some v => ⟨.ok v, cache, gr.2, sorted⟩
  | none =>
    let normalizedWords := sorted.map jsToLower
    if beh.storeOk then
      let rows := storeFindWordIndexes db normalizedWords
      let results := formatResults rows normalizedWords
      let sr := setCachedResult beh cache cacheKey (.fw results)
      ⟨.ok (.fw results), sr.1, gr.2 ++ sr.2, sorted⟩
    else ⟨.error (), cache, gr.2 ++ [.error "Error in findWords"], sorted⟩

/-- `findFirst({where: {word}, orderBy: {count: 'desc'}})`: fold keeping the
first row with the strictly greatest count seen so far. -/
def pickStep (best : Option WordArticleCountRow) (r : WordArticleCountRow) :
    Option WordArticleCountRow :=
  match best with
  | none => some r
  | some b => if b.count < r.count then some r else some b

/-- The store query of `getMostCommonWordArticle`: the matching
`word_article_count` row with the maximum count (first such row on ties),
or `none` when no row matches. -/
def findTopCountForWord (db : DB) (word : String) : Option WordArticleCountRow :=
  (db.wordArticleCount.filter (fun r => r.word == word)).foldl pickStep none

/-- The authoritative (store-derived) `getMostCommonWordArticle` result. -/
def mostCommonFromStore (db : DB) (word : String) : Option CacheVal :=
  (findTopCountForWord db (jsToLower word)).map
    (fun r => CacheVal.mcw r.articleId r.count)

/-- Observable outcome of a `getMostCommonWordArticle` call. -/
structure MostCommonOut where
  result : Except Unit (Option CacheVal)
  cache : Cache
  logs : List LogEntry

/-- `WordService.getMostCommonWordArticle`. -/
def getMostCommonWordArticle (beh : Behavior) (db : DB) (cache : Cache)
    (word : String) : MostCommonOut :=
  let cacheKey := "most-common-word:" ++ jsToLower word
  let gr := getCachedResult beh cache cacheKey
  match gr.1 with
  | some v => ⟨.ok (some v), cache, gr.2⟩
  | none =>
    if beh.storeOk then
      match findTopCountForWord db (jsToLower word) with
      | none => ⟨.ok none, cache, gr.2⟩
      | some row =>
        let sr := setCachedResult beh cache cacheKey (.mcw row.articleId row.count)
        ⟨.ok (some (.mcw row.articleId row.count)), sr.1, gr.2 ++ sr.2⟩
    else ⟨.error (), cache, gr.2 ++ [.error "Error in getMostCommonWordArticle"]⟩

/-- The store transaction of `processArticle`: delete both tables' rows for the
article, then insert one `WordIndex` and one `WordArticleCount` row per entry
of the positional map, with `count = positions.length`. -/
def applyIndexTransaction (db : DB) (articleId : String)
    (wp : List (String × List Nat)) : DB :=
  { wordIndex := db.wordIndex.filter (fun r => !(r.articleId == articleId)) ++
      wp.map (fun e => ⟨articleId, e.1, e.2⟩),
    wordArticleCount :=
      db.wordArticleCount.filter (fun r => !(r.articleId == articleId)) ++
      wp.map (fun e => ⟨articleId, e.1, e.2.length⟩) }

/-- The cache invalidation of `processArticle`: `redis.del('top-words:*')`
(a literal single-key delete) plus one `redis.del('most-common-word:<word>')`
per touched word. -/
def invalidateCaches (cache : Cache) (wordsTouched : List String) : Cache :=
  wordsTouched.foldl (fun c w => cacheDel c ("most-common-word:" ++ w))
    (cacheDel cache "top-words:*")

/-- Observable outcome of a `processArticle` call. -/
structure ProcessArticleOut where
  result : Except Unit Unit
  db : DB
  cache : Cache
  logs : List LogEntry

/-- `WordService.processArticle`.  Cache deletions go through
`Promise.allSettled`, so their failure never affects the result. -/
def processArticle (beh : Behavior) (db : DB) (cache : Cache)
    (articleId content : String) : ProcessArticleOut :=
  let wp := wordPositions content
  if beh.storeOk then
    let db2 := applyIndexTransaction db articleId wp
    let cache2 :=
      if beh.cacheDelOk then invalidateCaches cache (wp.map (fun e => e.1))
      else cache
    ⟨.ok (), db2, cache2, []⟩
  else ⟨.error (), db, cache, [.error "Error in processArticle"]⟩

/-- The `WordArticleCount` row functionally determined by a `WordIndex` row. -/
def countOfIndexRow (r : WordIndexRow) : WordArticleCountRow :=
  ⟨r.articleId, r.word, r.positions.length⟩

/-! ### Facts about the tokenizer -/

theorem char_toNat_ofNat_lt {n : Nat} (h : n < 55296) : (Char.ofNat n).toNat = n := by
  rw [Char.ofNat, dif_pos (Or.inl h)]
  rfl

theorem isWordChar_iff (c : Char) : isWordChar c = true ↔
    (97 ≤ c.toNat ∧ c.toNat ≤ 122) ∨ (65 ≤ c.toNat ∧ c.toNat ≤ 90) ∨
      (48 ≤ c.toNat ∧ c.toNat ≤ 57) ∨ c.toNat = 95 := by
  simp [isWordChar]
  tauto

/-- ASCII lowercasing does not change whether a character matches `\w`. -/
theorem isWordChar_toLower (c : Char) : isWordChar (Char.toLower c) = isWordChar c := by
  simp only [Char.toLower]
  split
  · next h =>
    obtain ⟨h1, h2⟩ := h
    have hv : (Char.ofNat (c.toNat + 32)).toNat = c.toNat + 32 :=
      char_toNat_ofNat_lt (by omega)
    have e1 : isWordChar (Char.ofNat (c.toNat + 32)) = true := by
      rw [isWordChar_iff, hv]; omega
    have e2 : isWordChar c = true := by rw [isWordChar_iff]; omega
    rw [e1, e2]
  · rfl

theorem consRun_map_toLower (c : Char) (rs : List (List Char)) :
    consRun (Char.toLower c) (rs.map (List.map Char.toLower)) =
      (consRun c rs).map (List.map Char.toLower) := by
  match rs with
  | [] => rfl
  | [] :: rest => rfl
  | (d :: ds) :: rest =>
    cases h : isWordChar c == isWordChar d with
    | true => simp [consRun, isWordChar_toLower, h]
    | false => simp [consRun, isWordChar_toLower, h]

/-- Lowercasing first and then splitting into runs yields the runs of the
original text, each lowercased. -/
theorem splitRuns_map_toLower (l : List Char) :
    splitRuns (l.map Char.toLower) = (splitRuns l).map (List.map Char.toLower) := by
  induction l with
  | nil => rfl
  | cons c cs ih => simp only [List.map, splitRuns, ih, consRun_map_toLower]

theorem all_isWordChar_map_toLower (seg : List Char) :
    (seg.map Char.toLower).all isWordChar = seg.all isWordChar := by
  induction seg with
  | nil => rfl
  | cons c cs ih => simp [isWordChar_toLower, ih]

theorem isEmpty_map_toLower (seg : List Char) :
    (seg.map Char.toLower).isEmpty = seg.isEmpty := by
  cases seg <;> rfl

/-- The position-accumulating loop over the lowercased runs computes exactly
the aggregation of the word tokens of the original runs. -/
theorem collect_map_toLower (segs : List (List Char)) :
    ∀ (pos : Nat) (m : List (String × List Nat)),
      collectWordPositions (segs.map (List.map Char.toLower)) pos m =
        (runTokens segs pos).foldl (fun m t => jsObjPush m t.1 t.2) m := by
  induction segs with
  | nil => intro pos m; rfl
  | cons seg rest ih =>
    intro pos m
    simp only [List.map, collectWordPositions, runTokens, isEmpty_map_toLower,
      all_isWordChar_map_toLower, List.length_map]
    by_cases h : (!seg.isEmpty && seg.all isWordChar) = true
    · simp only [h, if_true, List.foldl_cons]
      exact ih (pos + seg.length) (jsObjPush m ⟨seg.map Char.toLower⟩ pos)
    · simp only [Bool.not_eq_true] at h
      simp only [h, if_false]
      exact ih (pos + seg.length) m

/-! ### Facts about the JS sort comparator -/

theorem strLtb_irrefl (l : List Char) : strLtb l l = false := by
  induction l with
  | nil => rfl
  | cons a as ih => simp [strLtb, ih]

theorem strLtb_cons_iff {x y : Char} {xs ys : List Char} :
    strLtb (x :: xs) (y :: ys) = true ↔
      x.toNat < y.toNat ∨ (x.toNat = y.toNat ∧ strLtb xs ys = true) := by
  simp only [strLtb]
  by_cases h1 : x.toNat < y.toNat
  · simp [h1]
  · by_cases h2 : y.toNat < x.toNat
    · have hne : ¬x.toNat = y.toNat := by omega
      simp [h1, h2, hne]
    · have heq : x.toNat = y.toNat := by omega
      simp [h1, h2, heq]

theorem strLtb_trans {a b c : List Char} (hab : strLtb a b = true)
    (hbc : strLtb b c = true) : strLtb a c = true := by
  induction a generalizing b c with
  | nil =>
    cases c with
    | nil =>
      cases b with
      | nil => simp [strLtb] at hab
      | cons y ys => simp [strLtb] at hbc
    | cons z zs => rfl
  | cons x xs ih =>
    cases b with
    | nil => simp [strLtb] at hab
    | cons y ys =>
      cases c with
      | nil => simp [strLtb] at hbc
      | cons z zs =>
        rw [strLtb_cons_iff] at hab hbc ⊢
        rcases hab with h1 | ⟨h1, h1'⟩ <;> rcases hbc with h2 | ⟨h2, h2'⟩
        · exact Or.inl (by omega)
        · exact Or.inl (by omega)
        · exact Or.inl (by omega)
        · exact Or.inr ⟨by omega, ih h1' h2'⟩

theorem strLtb_asymm {a b : List Char} (h : strLtb a b = true) :
    strLtb b a = false := by
  cases hq : strLtb b a with
  | false => rfl
  | true => exact absurd (strLtb_trans h hq) (by simp [strLtb_irrefl])

theorem char_eq_of_toNat_eq {a b : Char} (h : a.toNat = b.toNat) : a = b :=
  Char.eq_of_val_eq (UInt32.toNat.inj h)

theorem strLtb_eq_of_not {a b : List Char} (hab : strLtb a b = false)
    (hba : strLtb b a = false) : a = b := by
  induction a generalizing b with
  | nil =>
    cases b with
    | nil => rfl
    | cons y ys => simp [strLtb] at hab
  | cons x xs ih =>
    cases b with
    | nil => simp [strLtb] at hba
    | cons y ys =>
      have hab' : ¬(x.toNat < y.toNat ∨ (x.toNat = y.toNat ∧ strLtb xs ys = true)) := by
        rw [← strLtb_cons_iff]; simp [hab]
      have hba' : ¬(y.toNat < x.toNat ∨ (y.toNat = x.toNat ∧ strLtb ys xs = true)) := by
        rw [← strLtb_cons_iff]; simp [hba]
      push_neg at hab' hba'
      obtain ⟨h1, h2⟩ := hab'
      obtain ⟨h3, h4⟩ := hba'
      have heq : x.toNat = y.toNat := by omega
      have htails : xs = ys := by
        refine ih ?_ ?_
        · cases hq : strLtb xs ys with
          | false => rfl
          | true => exact absurd hq (h2 heq)
        · cases hq : strLtb ys xs with
          | false => rfl
          | true => exact absurd hq (h4 heq.symm)
      rw [char_eq_of_toNat_eq heq, htails]

theorem strLeb_total (a b : String) : strLeb a b = true ∨ strLeb b a = true := by
  unfold strLeb
  cases h : strLtb b.data a.data with
  | false => exact Or.inl rfl
  | true => exact Or.inr (by simp [strLtb_asymm h])

theorem strLeb_trans {a b c : String} (h1 : strLeb a b = true)
    (h2 : strLeb b c = true) : strLeb a c = true := by
  unfold strLeb at h1 h2 ⊢
  simp only [Bool.not_eq_true'] at h1 h2 ⊢
  cases hca : strLtb c.data a.data with
  | false => rfl
  | true =>
    exfalso
    cases hbc : strLtb b.data c.data with
    | false =>
      have heq : b.data = c.data := strLtb_eq_of_not hbc h2
      rw [← heq] at hca
      exact absurd hca (by simp [h1])
    | true => exact absurd (strLtb_trans hbc hca) (by simp [h1])

theorem strLeb_antisymm {a b : String} (h1 : strLeb a b = true)
    (h2 : strLeb b a = true) : a = b := by
  unfold strLeb at h1 h2
  simp only [Bool.not_eq_true'] at h1 h2
  have hd : a.data = b.data := strLtb_eq_of_not h2 h1
  cases a
  cases b
  exact congrArg String.mk hd

theorem mem_orderedInsertJS {w x : String} {l : List String} :
    x ∈ orderedInsertJS w l ↔ x = w ∨ x ∈ l := by
  induction l with
  | nil => simp [orderedInsertJS]
  | cons y ys ih =>
    simp only [orderedInsertJS]
    split
    · simp [List.mem_cons]
    · simp [List.mem_cons, ih]
      tauto

theorem perm_orderedInsertJS (w : String) (l : List String) :
    (orderedInsertJS w l).Perm (w :: l) := by
  induction l with
  | nil => exact List.Perm.refl _
  | cons y ys ih =>
    simp only [orderedInsertJS]
    split
    · exact List.Perm.refl _
    · exact (ih.cons y).trans (List.Perm.swap w y ys)

theorem sorted_orderedInsertJS {w : String} {l : List String}
    (h : l.Sorted rLe) : (orderedInsertJS w l).Sorted rLe := by
  induction l with
  | nil => simp [orderedInsertJS, List.sorted_singleton]
  | cons y ys ih =>
    rw [List.sorted_cons] at h
    obtain ⟨hy, hys⟩ := h
    simp only [orderedInsertJS]
    split
    · next hwy =>
      rw [List.sorted_cons]
      refine ⟨?_, ?_⟩
      · intro b hb
        rcases List.mem_cons.mp hb with rfl | hb'
        · exact hwy
        · exact strLeb_trans hwy (hy b hb')
      · rw [List.sorted_cons]
        exact ⟨hy, hys⟩
    · next hwy =>
      rw [List.sorted_cons]
      refine ⟨?_, ih hys⟩
      intro b hb
      rcases mem_orderedInsertJS.mp hb with rfl | hb'
      · rcases strLeb_total y b with ht | ht
        · exact ht
        · exact absurd ht hwy
      · exact hy b hb'

theorem sortJS_perm (l : List String) : (sortJS l).Perm l := by
  induction l with
  | nil => exact List.Perm.refl _
  | cons w ws ih => exact (perm_orderedInsertJS w (sortJS ws)).trans (ih.cons w)

theorem sortJS_sorted (l : List String) : (sortJS l).Sorted rLe := by
  induction l with
  | nil => exact List.sorted_nil
  | cons w ws ih => exact sorted_orderedInsertJS ih

/-- `sortJS` depends only on the multiset of its input: permutation-equal
inputs sort to the same list. -/
theorem sortJS_eq_of_perm {l₁ l₂ : List String} (h : l₁.Perm l₂) :
    sortJS l₁ = sortJS l₂ := by
  haveI : IsAntisymm String rLe := ⟨fun a b h1 h2 => strLeb_antisymm h1 h2⟩
  exact List.eq_of_perm_of_sorted
    ((sortJS_perm l₁).trans (h.trans (sortJS_perm l₂).symm))
    (sortJS_sorted l₁) (sortJS_sorted l₂)

/-- On ASCII code points the per-code-point lowercase mapping is the
single-character ASCII mapping. -/
theorem jsLowerChar_ascii {c : Char} (h : c.toNat < 128) :
    jsLowerChar c = [Char.toLower c] := by
  have ht : Char.toLower c =
      if c.toNat ≥ 65 ∧ c.toNat ≤ 90 then Char.ofNat (c.toNat + 32) else c := rfl
  unfold jsLowerChar
  rw [ht]
  by_cases h1 : c.toNat ≥ 65 ∧ c.toNat ≤ 90
  · rw [if_pos h1, if_pos h1]
  · rw [if_neg h1, if_neg h1, if_neg (by omega), if_neg (by omega)]

/-- On ASCII content, JS lowercasing is the per-character ASCII mapping. -/
theorem jsToLowerData_ascii {l : List Char}
    (h : l.all (fun c => c.toNat < 128) = true) :
    jsToLowerData l = l.map Char.toLower := by
  induction l with
  | nil => rfl
  | cons c cs ih =>
    rw [List.all_cons, Bool.and_eq_true] at h
    simp only [jsToLowerData, jsLowerChar_ascii (by simpa using h.1), ih h.2]
    rfl

/-! ### The claims -/

/-- Claim C2 as universally stated is false on the code: `toLowerCase` runs
before tokenization, so for the content `"İ"` (the single code point U+0130,
which is not a `\w` character) the lowercased string is `i` followed by the
combining dot above, and the code derives the map `{i: [0]}` — a key and an
offset taken from the lowercased string — while the spec's tokenizer of the
original text emits no word token and yields the empty map. -/
theorem spec_C2_counterexample :
    wordPositions "İ" = [("i", [0])] ∧ specPositionalMap "İ" = [] ∧
      wordPositions "İ" ≠ specPositionalMap "İ" := by
  refine ⟨?_, ?_, ?_⟩ <;> decide

/-- Claim C2 (amended): for every ASCII article content — every character
below U+0080, the fragment on which lowercasing is length- and
`\w`-class-preserving — `processArticle` derives exactly the positional map
the spec's tokenizer defines: the lowercased maximal runs of word-constituent
characters of the original text, each mapped to the list, in first-to-last
order, of the starting character offsets (counted from 0) of its occurrences;
content with no word-constituent run yields the empty map.  On non-ASCII
content the code tokenizes the lowercased string instead of the original, and
the two can differ (see the counterexample). -/
theorem spec_C2 (content : String)
    (h : content.data.all (fun c => c.toNat < 128) = true) :
    wordPositions content = specPositionalMap content := by
  unfold wordPositions specPositionalMap specTokens
  rw [jsToLowerData_ascii h, splitRuns_map_toLower, collect_map_toLower]

theorem spec_C2_witness :
    ("Hello world! Hello again." : String).data.all (fun c => c.toNat < 128) = true ∧
      wordPositions "Hello world! Hello again." =
        specPositionalMap "Hello world! Hello again." :=
  ⟨by decide, spec_C2 "Hello world! Hello again." (by decide)⟩

/-- Claim C1 as stated is false: `findWords` builds its cache key from the
sorted words without lowercasing and without deduplication, so the inputs
`["Hello"]` and `["hello"]` — equal as sets ignoring case — use different
cache keys, and so do `["a","a"]` and `["a"]`. -/
theorem spec_C1_counterexample :
    (["Hello"].map jsToLower = ["hello"].map jsToLower) ∧
      findWordsKey ["Hello"] ≠ findWordsKey ["hello"] ∧
      findWordsKey ["a", "a"] ≠ findWordsKey ["a"] := by
  refine ⟨?_, ?_, ?_⟩ <;> decide

/-- Claim C1 (amended): `findWords` forms its cache key as `find-words:`
followed by the sorted, comma-joined query words exactly as given (neither
lowercased nor deduplicated), so any two inputs that are permutations of each
other — equal as multisets, with identical case and multiplicities — read and
write the same cache entry. -/
theorem spec_C1 (w₁ w₂ : List String) (h : w₁.Perm w₂) :
    findWordsKey w₁ = findWordsKey w₂ := by
  unfold findWordsKey
  rw [sortJS_eq_of_perm h]

theorem spec_C1_witness : findWordsKey ["b", "a"] = findWordsKey ["a", "b"] :=
  spec_C1 ["b", "a"] ["a", "b"] (List.Perm.swap "a" "b" [])

theorem filter_of_filter_not {α : Type} (p : α → Bool) (l : List α) :
    ((l.filter fun a => !p a).filter p) = [] := by
  induction l with
  | nil => rfl
  | cons a as ih =>
    cases h : p a with
    | true => simp [List.filter_cons, h, ih]
    | false => simp [List.filter_cons, h, ih]

theorem filter_articleId_map_index (id : String) (wp : List (String × List Nat)) :
    ((wp.map fun e => (⟨id, e.1, e.2⟩ : WordIndexRow)).filter
        fun r => r.articleId == id) = wp.map fun e => (⟨id, e.1, e.2⟩ : WordIndexRow) := by
  induction wp with
  | nil => rfl
  | cons e es ih => simp [List.filter_cons, ih]

theorem filter_articleId_map_count (id : String) (wp : List (String × List Nat)) :
    ((wp.map fun e => (⟨id, e.1, e.2.length⟩ : WordArticleCountRow)).filter
        fun r => r.articleId == id) =
      wp.map fun e => (⟨id, e.1, e.2.length⟩ : WordArticleCountRow) := by
  induction wp with
  | nil => rfl
  | cons e es ih => simp [List.filter_cons, ih]

theorem map_countOfIndexRow (id : String) (wp : List (String × List Nat)) :
    (wp.map fun e => (⟨id, e.1, e.2⟩ : WordIndexRow)).map countOfIndexRow =
      wp.map fun e => (⟨id, e.1, e.2.length⟩ : WordArticleCountRow) := by
  rw [List.map_map]
  rfl

/-- Claim C3: after a successful `processArticle`, every `WordArticleCount`
row for the article has `count` equal to the length of the `positions` list of
the `WordIndex` row for the same `(articleId, word)` pair — the rows for the
article in the two tables are the images of the same positional map, written
in the same transaction. -/
theorem spec_C3 (beh : Behavior) (db : DB) (cache : Cache)
    (articleId content : String) (h : beh.storeOk = true) :
    (processArticle beh db cache articleId content).db.wordArticleCount.filter
        (fun r => r.articleId == articleId) =
      ((processArticle beh db cache articleId content).db.wordIndex.filter
        (fun r => r.articleId == articleId)).map countOfIndexRow := by
  simp only [processArticle, h, if_true, applyIndexTransaction, List.filter_append,
    filter_of_filter_not, List.nil_append, filter_articleId_map_index,
    filter_articleId_map_count, map_countOfIndexRow]

theorem spec_C3_witness :
    (processArticle ⟨true, true, true, true⟩ ⟨[], []⟩ []
        "1" "Hello world! Hello again.").db.wordArticleCount.filter
        (fun r => r.articleId == "1") =
      ((processArticle ⟨true, true, true, true⟩ ⟨[], []⟩ []
        "1" "Hello world! Hello again.").db.wordIndex.filter
        (fun r => r.articleId == "1")).map countOfIndexRow :=
  spec_C3 ⟨true, true, true, true⟩ ⟨[], []⟩ [] "1" "Hello world! Hello again." rfl

/-- Claim C9: for empty content and for purely non-word content, a successful
`processArticle` removes every prior row for the article from both tables and
writes none, leaving zero `WordIndex` and zero `WordArticleCount` rows for that
article, and returns success. -/
theorem spec_C9 (beh : Behavior) (db : DB) (cache : Cache) (articleId : String)
    (h : beh.storeOk = true) :
    ((processArticle beh db cache articleId "").result = Except.ok () ∧
      (processArticle beh db cache articleId "").db.wordIndex =
        db.wordIndex.filter (fun r => !(r.articleId == articleId)) ∧
      (processArticle beh db cache articleId "").db.wordArticleCount =
        db.wordArticleCount.filter (fun r => !(r.articleId == articleId)) ∧
      (processArticle beh db cache articleId "").db.wordIndex.filter
        (fun r => r.articleId == articleId) = [] ∧
      (processArticle beh db cache articleId "").db.wordArticleCount.filter
        (fun r => r.articleId == articleId) = []) ∧
    ((processArticle beh db cache articleId "!@#$%^&*()").result = Except.ok () ∧
      (processArticle beh db cache articleId "!@#$%^&*()").db.wordIndex =
        db.wordIndex.filter (fun r => !(r.articleId == articleId)) ∧
      (processArticle beh db cache articleId "!@#$%^&*()").db.wordArticleCount =
        db.wordArticleCount.filter (fun r => !(r.articleId == articleId)) ∧
      (processArticle beh db cache articleId "!@#$%^&*()").db.wordIndex.filter
        (fun r => r.articleId == articleId) = [] ∧
      (processArticle beh db cache articleId "!@#$%^&*()").db.wordArticleCount.filter
        (fun r => r.articleId == articleId) = []) := by
  have e1 : wordPositions "" = [] := rfl
  have e2 : wordPositions "!@#$%^&*()" = [] := rfl
  simp only [processArticle, h, if_true, e1, e2, applyIndexTransaction,
    List.map_nil, List.append_nil]
  simp [filter_of_filter_not]

theorem spec_C9_witness :
    ((processArticle ⟨true, true, true, true⟩
        ⟨[⟨"1", "old", [0]⟩], [⟨"1", "old", 1⟩]⟩ [] "1" "").result = Except.ok () ∧
      (processArticle ⟨true, true, true, true⟩
        ⟨[⟨"1", "old", [0]⟩], [⟨"1", "old", 1⟩]⟩ [] "1" "").db.wordIndex =
        (DB.mk [⟨"1", "old", [0]⟩] [⟨"1", "old", 1⟩]).wordIndex.filter
          (fun r => !(r.articleId == "1")) ∧
      (processArticle ⟨true, true, true, true⟩
        ⟨[⟨"1", "old", [0]⟩], [⟨"1", "old", 1⟩]⟩ [] "1" "").db.wordArticleCount =
        (DB.mk [⟨"1", "old", [0]⟩] [⟨"1", "old", 1⟩]).wordArticleCount.filter
          (fun r => !(r.articleId == "1")) ∧
      (processArticle ⟨true, true, true, true⟩
        ⟨[⟨"1", "old", [0]⟩], [⟨"1", "old", 1⟩]⟩ [] "1" "").db.wordIndex.filter
        (fun r => r.articleId == "1") = [] ∧
      (processArticle ⟨true, true, true, true⟩
        ⟨[⟨"1", "old", [0]⟩], [⟨"1", "old", 1⟩]⟩ [] "1" "").db.wordArticleCount.filter
        (fun r => r.articleId == "1") = []) ∧
    ((processArticle ⟨true, true, true, true⟩
        ⟨[⟨"1", "old", [0]⟩], [⟨"1", "old", 1⟩]⟩ [] "1" "!@#$%^&*()").result = Except.ok () ∧
      (processArticle ⟨true, true, true, true⟩
        ⟨[⟨"1", "old", [0]⟩], [⟨"1", "old", 1⟩]⟩ [] "1" "!@#$%^&*()").db.wordIndex =
        (DB.mk [⟨"1", "old", [0]⟩] [⟨"1", "old", 1⟩]).wordIndex.filter
          (fun r => !(r.articleId == "1")) ∧
      (processArticle ⟨true, true, true, true⟩
        ⟨[⟨"1", "old", [0]⟩], [⟨"1", "old", 1⟩]⟩ [] "1" "!@#$%^&*()").db.wordArticleCount =
        (DB.mk [⟨"1", "old", [0]⟩] [⟨"1", "old", 1⟩]).wordArticleCount.filter
          (fun r => !(r.articleId == "1")) ∧
      (processArticle ⟨true, true, true, true⟩
        ⟨[⟨"1", "old", [0]⟩], [⟨"1", "old", 1⟩]⟩ [] "1" "!@#$%^&*()").db.wordIndex.filter
        (fun r => r.articleId == "1") = [] ∧
      (processArticle ⟨true, true, true, true⟩
        ⟨[⟨"1", "old", [0]⟩], [⟨"1", "old", 1⟩]⟩ [] "1" "!@#$%^&*()").db.wordArticleCount.filter
        (fun r => r.articleId == "1") = []) :=
  spec_C9 ⟨true, true, true, true⟩ ⟨[⟨"1", "old", [0]⟩], [⟨"1", "old", 1⟩]⟩ [] "1" rfl

/-- Claim C4 fails on the code (code bug): on success `processArticle` does
delete the `most-common-word:<word>` entry of every touched word, but
`redis.del('top-words:*')` deletes only the entry whose literal key is
`top-words:*` — Redis `DEL` takes exact key names, not glob patterns — so a
cached entry whose key matches the pattern `top-words:*`, here
`top-words:limit=10`, survives the invalidation, contradicting the claim that
every `top-words:*` variant is deleted. -/
theorem spec_C4_bug :
    ((processArticle ⟨true, true, true, true⟩ ⟨[], []⟩
        [("top-words:limit=10", CacheVal.mcw "a1" 7, 600),
          ("most-common-word:hello", CacheVal.mcw "a2" 3, 600)]
        "1" "hello").result = Except.ok ()) ∧
      matchesTopWordsPattern "top-words:limit=10" = true ∧
      cacheGet (processArticle ⟨true, true, true, true⟩ ⟨[], []⟩
        [("top-words:limit=10", CacheVal.mcw "a1" 7, 600),
          ("most-common-word:hello", CacheVal.mcw "a2" 3, 600)]
        "1" "hello").cache "top-words:limit=10" = some (CacheVal.mcw "a1" 7) ∧
      cacheGet (processArticle ⟨true, true, true, true⟩ ⟨[], []⟩
        [("top-words:limit=10", CacheVal.mcw "a1" 7, 600),
          ("most-common-word:hello", CacheVal.mcw "a2" 3, 600)]
        "1" "hello").cache "most-common-word:hello" = none :=
  ⟨rfl, by decide, rfl, rfl⟩

theorem getCachedResult_fst_of_miss {beh : Behavior} {cache : Cache} {k : String}
    (h : cacheGet cache k = none) : (getCachedResult beh cache k).1 = none := by
  unfold getCachedResult
  cases beh.cacheGetOk <;> simp [h]

/-- Claim C5: when the cache `get` fails after exhausting every retry attempt
while the store is reachable, `findWords` and `getMostCommonWordArticle` treat
it as a cache miss: a warning is logged, the authoritative store is queried,
and its result is returned successfully — the cache failure is never raised. -/
theorem spec_C5 (beh : Behavior) (db : DB) (cache : Cache) (words : List String)
    (word : String) (hget : beh.cacheGetOk = false) (hstore : beh.storeOk = true) :
    ((findWords beh db cache words).result =
        Except.ok (CacheVal.fw (findWordsFromStore db words)) ∧
      LogEntry.warn "Failed to get cached result after retries" ∈
        (findWords beh db cache words).logs) ∧
    ((getMostCommonWordArticle beh db cache word).result =
        Except.ok (mostCommonFromStore db word) ∧
      LogEntry.warn "Failed to get cached result after retries" ∈
        (getMostCommonWordArticle beh db cache word).logs) := by
  refine ⟨⟨?_, ?_⟩, ?_⟩
  · simp [findWords, getCachedResult, hget, hstore, findWordsFromStore]
  · simp [findWords, getCachedResult, hget, hstore]
  · cases hf : findTopCountForWord db (jsToLower word) with
    | none =>
      constructor
      · simp [getMostCommonWordArticle, getCachedResult, hget, hstore, hf,
          mostCommonFromStore]
      · simp [getMostCommonWordArticle, getCachedResult, hget, hstore, hf]
    | some row =>
      constructor
      · simp [getMostCommonWordArticle, getCachedResult, hget, hstore, hf,
          mostCommonFromStore]
      · simp [getMostCommonWordArticle, getCachedResult, hget, hstore, hf]

theorem spec_C5_witness :
    ((findWords ⟨false, true, true, true⟩ ⟨[⟨"1", "hello", [0, 12]⟩], []⟩
        [("find-words:hello", CacheVal.fw [], 600)] ["hello"]).result =
        Except.ok (CacheVal.fw (findWordsFromStore
          ⟨[⟨"1", "hello", [0, 12]⟩], []⟩ ["hello"])) ∧
      LogEntry.warn "Failed to get cached result after retries" ∈
        (findWords ⟨false, true, true, true⟩ ⟨[⟨"1", "hello", [0, 12]⟩], []⟩
          [("find-words:hello", CacheVal.fw [], 600)] ["hello"]).logs) ∧
    ((getMostCommonWordArticle ⟨false, true, true, true⟩
        ⟨[⟨"1", "hello", [0, 12]⟩], []⟩
        [("find-words:hello", CacheVal.fw [], 600)] "hello").result =
        Except.ok (mostCommonFromStore ⟨[⟨"1", "hello", [0, 12]⟩], []⟩ "hello") ∧
      LogEntry.warn "Failed to get cached result after retries" ∈
        (getMostCommonWordArticle ⟨false, true, true, true⟩
          ⟨[⟨"1", "hello", [0, 12]⟩], []⟩
          [("find-words:hello", CacheVal.fw [], 600)] "hello").logs) :=
  spec_C5 ⟨false, true, true, true⟩ ⟨[⟨"1", "hello", [0, 12]⟩], []⟩
    [("find-words:hello", CacheVal.fw [], 600)] ["hello"] "hello" rfl rfl

/-- Claim C6: when the authoritative store query fails after exhausting every
retry attempt (and the cache holds no entry, so the store is actually
consulted), both `findWords` and `getMostCommonWordArticle` log the error and
propagate it as a hard failure of the overall request. -/
theorem spec_C6 (beh : Behavior) (db : DB) (cache : Cache) (words : List String)
    (word : String) (hstore : beh.storeOk = false)
    (hm1 : cacheGet cache (findWordsKey words) = none)
    (hm2 : cacheGet cache ("most-common-word:" ++ jsToLower word) = none) :
    ((findWords beh db cache words).result = Except.error () ∧
      LogEntry.error "Error in findWords" ∈ (findWords beh db cache words).logs) ∧
    ((getMostCommonWordArticle beh db cache word).result = Except.error () ∧
      LogEntry.error "Error in getMostCommonWordArticle" ∈
        (getMostCommonWordArticle beh db cache word).logs) := by
  have h1 : (getCachedResult beh cache (findWordsKey words)).1 = none :=
    getCachedResult_fst_of_miss hm1
  have h2 : (getCachedResult beh cache ("most-common-word:" ++ jsToLower word)).1 = none :=
    getCachedResult_fst_of_miss hm2
  refine ⟨⟨?_, ?_⟩, ⟨?_, ?_⟩⟩ <;>
    simp [findWords, getMostCommonWordArticle, h1, h2, hstore]

theorem spec_C6_witness :
    ((findWords ⟨true, true, true, false⟩ ⟨[], []⟩ [] ["hello"]).result =
        Except.error () ∧
      LogEntry.error "Error in findWords" ∈
        (findWords ⟨true, true, true, false⟩ ⟨[], []⟩ [] ["hello"]).logs) ∧
    ((getMostCommonWordArticle ⟨true, true, true, false⟩ ⟨[], []⟩ [] "hello").result =
        Except.error () ∧
      LogEntry.error "Error in getMostCommonWordArticle" ∈
        (getMostCommonWordArticle ⟨true, true, true, false⟩ ⟨[], []⟩ [] "hello").logs) :=
  spec_C6 ⟨true, true, true, false⟩ ⟨[], []⟩ [] ["hello"] "hello" rfl rfl rfl

theorem pickStep_some (acc : Option WordArticleCountRow) (r : WordArticleCountRow) :
    ∃ b, pickStep acc r = some b ∧ r.count ≤ b.count ∧
      (∀ a, acc = some a → a.count ≤ b.count) ∧ (b = r ∨ acc = some b) := by
  cases acc with
  | none =>
    refine ⟨r, rfl, Nat.le_refl _, ?_, Or.inl rfl⟩
    intro a ha
    cases ha
  | some a =>
    by_cases hlt : a.count < r.count
    · refine ⟨r, by simp [pickStep, hlt], Nat.le_refl _, ?_, Or.inl rfl⟩
      intro a' ha'
      injection ha' with ha'
      subst ha'
      omega
    · refine ⟨a, by simp [pickStep, hlt], by omega, ?_, Or.inr rfl⟩
      intro a' ha'
      injection ha' with ha'
      subst ha'
      omega

theorem foldl_pickStep_spec (rows : List WordArticleCountRow) :
    ∀ (acc : Option WordArticleCountRow) (row : WordArticleCountRow),
      rows.foldl pickStep acc = some row →
      (row ∈ rows ∨ acc = some row) ∧ (∀ r ∈ rows, r.count ≤ row.count) ∧
        (∀ b, acc = some b → b.count ≤ row.count) := by
  induction rows with
  | nil =>
    intro acc row h
    simp only [List.foldl_nil] at h
    refine ⟨Or.inr h, ?_, ?_⟩
    · intro r hr
      cases hr
    · intro b hb
      rw [h] at hb
      injection hb with hb
      subst hb
      exact Nat.le_refl _
  | cons r rest ih =>
    intro acc row h
    rw [List.foldl_cons] at h
    obtain ⟨hmem, hmax, hacc⟩ := ih (pickStep acc r) row h
    obtain ⟨b, hb, hrb, haccb, hbor⟩ := pickStep_some acc r
    have hble : b.count ≤ row.count := hacc b hb
    refine ⟨?_, ?_, ?_⟩
    · rcases hmem with hm | hm
      · exact Or.inl (List.mem_cons_of_mem _ hm)
      · rw [hm] at hb
        injection hb with hb
        rcases hbor with hbr | hacc'
        · exact Or.inl (hb ▸ hbr ▸ List.mem_cons_self _ _)
        · exact Or.inr (hb ▸ hacc')
    · intro x hx
      rcases List.mem_cons.mp hx with rfl | hx'
      · omega
      · exact hmax x hx'
    · intro a ha
      have := haccb a ha
      omega

/-- A row returned by the `orderBy count desc, findFirst` query is a matching
row of maximal count. -/
theorem findTopCountForWord_spec {db : DB} {w : String} {row : WordArticleCountRow}
    (h : findTopCountForWord db w = some row) :
    row ∈ db.wordArticleCount ∧ row.word = w ∧
      ∀ r ∈ db.wordArticleCount, r.word = w → r.count ≤ row.count := by
  unfold findTopCountForWord at h
  obtain ⟨hmem, hmax, -⟩ := foldl_pickStep_spec _ none row h
  rcases hmem with hm | hm
  · have hf := List.mem_filter.mp hm
    refine ⟨hf.1, by simpa using hf.2, ?_⟩
    intro r hr hw
    exact hmax r (List.mem_filter.mpr ⟨hr, by simp [hw]⟩)
  · cases hm

/-- Claim C7: on a cache miss, a word with no matching `WordArticleCount` row
yields a `null` result and no cache write at all; when a row is found, it is a
matching row of maximum count and its `{article_id, count}` is cached with TTL
600 and returned. -/
theorem spec_C7 (beh : Behavior) (db : DB) (cache : Cache) (word : String)
    (hmiss : cacheGet cache ("most-common-word:" ++ jsToLower word) = none)
    (hstore : beh.storeOk = true) (hset : beh.cacheSetOk = true) :
    (db.wordArticleCount.filter (fun r => r.word == jsToLower word) = [] →
      (getMostCommonWordArticle beh db cache word).result = Except.ok none ∧
      (getMostCommonWordArticle beh db cache word).cache = cache) ∧
    (∀ row, findTopCountForWord db (jsToLower word) = some row →
      (getMostCommonWordArticle beh db cache word).result =
        Except.ok (some (CacheVal.mcw row.articleId row.count)) ∧
      ("most-common-word:" ++ jsToLower word,
          CacheVal.mcw row.articleId row.count, 600) ∈
        (getMostCommonWordArticle beh db cache word).cache ∧
      row ∈ db.wordArticleCount ∧ row.word = jsToLower word ∧
      (∀ r ∈ db.wordArticleCount, r.word = jsToLower word → r.count ≤ row.count)) := by
  have h1 : (getCachedResult beh cache ("most-common-word:" ++ jsToLower word)).1 = none :=
    getCachedResult_fst_of_miss hmiss
  constructor
  · intro hempty
    have hnone : findTopCountForWord db (jsToLower word) = none := by
      unfold findTopCountForWord
      rw [hempty]
      rfl
    constructor <;> simp [getMostCommonWordArticle, h1, hstore, hnone]
  · intro row hrow
    obtain ⟨hm, hw, hmax⟩ := findTopCountForWord_spec hrow
    refine ⟨?_, ?_, hm, hw, hmax⟩
    · simp [getMostCommonWordArticle, h1, hstore, hrow]
    · simp [getMostCommonWordArticle, h1, hstore, hrow, setCachedResult, hset, cacheSet]

theorem spec_C7_witness :
    ((DB.mk [] [⟨"a1", "hello", 3⟩]).wordArticleCount.filter
        (fun r => r.word == jsToLower "Hello") = [] →
      (getMostCommonWordArticle ⟨true, true, true, true⟩
        ⟨[], [⟨"a1", "hello", 3⟩]⟩ [] "Hello").result = Except.ok none ∧
      (getMostCommonWordArticle ⟨true, true, true, true⟩
        ⟨[], [⟨"a1", "hello", 3⟩]⟩ [] "Hello").cache = []) ∧
    (∀ row, findTopCountForWord ⟨[], [⟨"a1", "hello", 3⟩]⟩ (jsToLower "Hello") = some row →
      (getMostCommonWordArticle ⟨true, true, true, true⟩
        ⟨[], [⟨"a1", "hello", 3⟩]⟩ [] "Hello").result =
        Except.ok (some (CacheVal.mcw row.articleId row.count)) ∧
      ("most-common-word:" ++ jsToLower "Hello",
          CacheVal.mcw row.articleId row.count, 600) ∈
        (getMostCommonWordArticle ⟨true, true, true, true⟩
          ⟨[], [⟨"a1", "hello", 3⟩]⟩ [] "Hello").cache ∧
      row ∈ (DB.mk [] [⟨"a1", "hello", 3⟩]).wordArticleCount ∧
      row.word = jsToLower "Hello" ∧
      (∀ r ∈ (DB.mk [] [⟨"a1", "hello", 3⟩]).wordArticleCount,
        r.word = jsToLower "Hello" → r.count ≤ row.count)) :=
  spec_C7 ⟨true, true, true, true⟩ ⟨[], [⟨"a1", "hello", 3⟩]⟩ [] "Hello" rfl rfl rfl

theorem lookupAssoc_jsObjSet_self (m : List (String × List FWEntry)) (k : String)
    (v : List FWEntry) : lookupAssoc (jsObjSet m k v) k = some v := by
  induction m with
  | nil => simp [jsObjSet, lookupAssoc]
  | cons e rest ih =>
    obtain ⟨k', v'⟩ := e
    cases hq : (k' == k) with
    | true => simp [jsObjSet, hq, lookupAssoc]
    | false =>
      have he : jsObjSet ((k', v') :: rest) k v = (k', v') :: jsObjSet rest k v := by
        simp [jsObjSet, hq]
      rw [he]
      unfold lookupAssoc at ih ⊢
      rw [List.find?_cons_of_neg _ (by simp [hq])]
      exact ih

theorem lookupAssoc_jsObjSet_ne (m : List (String × List FWEntry)) {k k' : String}
    (v : List FWEntry) (h : (k' == k) = false) :
    lookupAssoc (jsObjSet m k' v) k = lookupAssoc m k := by
  induction m with
  | nil => simp [jsObjSet, lookupAssoc, h]
  | cons e rest ih =>
    obtain ⟨k₀, v₀⟩ := e
    cases h0 : (k₀ == k') with
    | true =>
      have hk : k₀ = k' := by simpa using h0
      have he : jsObjSet ((k₀, v₀) :: rest) k' v = (k₀, v) :: rest := by
        simp [jsObjSet, h0]
      rw [he]
      unfold lookupAssoc
      rw [List.find?_cons_of_neg _ (by simp [hk]; simpa using h),
        List.find?_cons_of_neg _ (by simp [hk]; simpa using h)]
    | false =>
      have he : jsObjSet ((k₀, v₀) :: rest) k' v = (k₀, v₀) :: jsObjSet rest k' v := by
        simp [jsObjSet, h0]
      rw [he]
      unfold lookupAssoc at ih ⊢
      cases hq : (k₀ == k) with
      | true =>
        rw [List.find?_cons_of_pos _ (by simpa using hq),
          List.find?_cons_of_pos _ (by simpa using hq)]
      | false =>
        rw [List.find?_cons_of_neg _ (by simp [hq]),
          List.find?_cons_of_neg _ (by simp [hq])]
        exact ih

theorem lookupAssoc_foldl_not_mem (nw : List String) (rows : List WordIndexRow) :
    ∀ (m : List (String × List FWEntry)) (w : String), w ∉ nw →
      lookupAssoc (nw.foldl (fun m x => jsObjSet m x (entriesForWord rows x)) m) w =
        lookupAssoc m w := by
  induction nw with
  | nil =>
    intro m w _
    rfl
  | cons x rest ih =>
    intro m w hw
    rw [List.foldl_cons, ih _ w (fun hmem => hw (List.mem_cons_of_mem _ hmem))]
    apply lookupAssoc_jsObjSet_ne
    have hne : ¬w = x := fun heq => hw (heq ▸ List.mem_cons_self _ _)
    exact beq_eq_false_iff_ne.mpr (fun heq => hne heq.symm)

/-- Every queried (normalized) word is a key of the formatted result, bound to
exactly the `{article_id, offsets}` list its rows produce. -/
theorem lookupAssoc_formatResults (rows : List WordIndexRow) (nw : List String) :
    ∀ (m : List (String × List FWEntry)) (w : String), w ∈ nw →
      lookupAssoc (nw.foldl (fun m x => jsObjSet m x (entriesForWord rows x)) m) w =
        some (entriesForWord rows w) := by
  induction nw with
  | nil =>
    intro m w hw
    cases hw
  | cons x rest ih =>
    intro m w hw
    rw [List.foldl_cons]
    by_cases hwr : w ∈ rest
    · exact ih _ w hwr
    · have hwx : w = x := by
        rcases List.mem_cons.mp hw with h | h
        · exact h
        · exact absurd h hwr
      subst hwx
      rw [lookupAssoc_foldl_not_mem rest rows _ w hwr]
      exact lookupAssoc_jsObjSet_self m w _

/-- A word with no `word_index` rows at all contributes the empty entry list. -/
theorem entriesForWord_eq_nil {db : DB} {nw : List String} {w : String}
    (h : db.wordIndex.filter (fun r => r.word == w) = []) :
    entriesForWord (storeFindWordIndexes db nw) w = [] := by
  unfold entriesForWord storeFindWordIndexes
  rw [List.filter_filter]
  have hnil : db.wordIndex.filter (fun r => (r.word == w) && nw.contains r.word) = [] := by
    rw [List.filter_eq_nil_iff]
    intro a ha hq
    rw [Bool.and_eq_true] at hq
    exact absurd hq.1 (by simpa using List.filter_eq_nil_iff.mp h a ha)
  rw [hnil]
  rfl

/-- Claim C8: on a cache miss with a reachable store, `findWords` returns the
store-derived mapping, which has a key for every normalized queried word (a
word absent from the store maps to the empty list, not an omitted key), and
this result — even an all-empty mapping — is written to the cache with TTL
600. -/
theorem spec_C8 (beh : Behavior) (db : DB) (cache : Cache) (words : List String)
    (hmiss : cacheGet cache (findWordsKey words) = none)
    (hstore : beh.storeOk = true) (hset : beh.cacheSetOk = true) :
    (findWords beh db cache words).result =
        Except.ok (CacheVal.fw (findWordsFromStore db words)) ∧
    (∀ w ∈ (sortJS words).map jsToLower,
      lookupAssoc (findWordsFromStore db words) w =
        some (entriesForWord (storeFindWordIndexes db ((sortJS words).map jsToLower)) w)) ∧
    (∀ w ∈ (sortJS words).map jsToLower,
      db.wordIndex.filter (fun r => r.word == w) = [] →
        lookupAssoc (findWordsFromStore db words) w = some []) ∧
    (findWordsKey words, CacheVal.fw (findWordsFromStore db words), 600) ∈
      (findWords beh db cache words).cache := by
  have h1 : (getCachedResult beh cache (findWordsKey words)).1 = none :=
    getCachedResult_fst_of_miss hmiss
  refine ⟨?_, ?_, ?_, ?_⟩
  · simp [findWords, h1, hstore, findWordsFromStore]
  · intro w hw
    exact lookupAssoc_formatResults _ _ [] w hw
  · intro w hw hnil
    have hlk := lookupAssoc_formatResults
      (storeFindWordIndexes db ((sortJS words).map jsToLower))
      ((sortJS words).map jsToLower) [] w hw
    rw [entriesForWord_eq_nil hnil] at hlk
    exact hlk
  · simp [findWords, h1, hstore, setCachedResult, hset, cacheSet, findWordsFromStore]

theorem spec_C8_witness :
    (findWords ⟨true, true, true, true⟩ ⟨[⟨"1", "hello", [0, 12]⟩], []⟩ []
        ["hello", "zzz"]).result =
        Except.ok (CacheVal.fw (findWordsFromStore
          ⟨[⟨"1", "hello", [0, 12]⟩], []⟩ ["hello", "zzz"])) ∧
    (∀ w ∈ (sortJS ["hello", "zzz"]).map jsToLower,
      lookupAssoc (findWordsFromStore ⟨[⟨"1", "hello", [0, 12]⟩], []⟩ ["hello", "zzz"]) w =
        some (entriesForWord
          (storeFindWordIndexes ⟨[⟨"1", "hello", [0, 12]⟩], []⟩
            ((sortJS ["hello", "zzz"]).map jsToLower))
          w)) ∧
    (∀ w ∈ (sortJS ["hello", "zzz"]).map jsToLower,
      (DB.mk [⟨"1", "hello", [0, 12]⟩] []).wordIndex.filter (fun r => r.word == w) = [] →
        lookupAssoc (findWordsFromStore ⟨[⟨"1", "hello", [0, 12]⟩], []⟩
          ["hello", "zzz"]) w = some []) ∧
    (findWordsKey ["hello", "zzz"],
        CacheVal.fw (findWordsFromStore ⟨[⟨"1", "hello", [0, 12]⟩], []⟩ ["hello", "zzz"]),
        600) ∈
      (findWords ⟨true, true, true, true⟩ ⟨[⟨"1", "hello", [0, 12]⟩], []⟩ []
        ["hello", "zzz"]).cache :=
  spec_C8 ⟨true, true, true, true⟩ ⟨[⟨"1", "hello", [0, 12]⟩], []⟩ []
    ["hello", "zzz"] rfl rfl rfl

/-- Claim C10: `findWords` mutates its caller's array — after every call the
caller's `words` array holds the sorted permutation of what was passed (the
sort happens before normalization, and the original order is lost whenever the
input was not already sorted, as witnessed by `["b", "a"]`). -/
theorem spec_C10 :
    (∀ (beh : Behavior) (db : DB) (cache : Cache) (words : List String),
      (findWords beh db cache words).wordsAfter = sortJS words) ∧
    sortJS ["b", "a"] = ["a", "b"] ∧ (["a", "b"] : List String) ≠ ["b", "a"] := by
  refine ⟨?_, by decide, by decide⟩
  intro beh db cache words
  simp only [findWords]
  cases h : (getCachedResult beh cache (findWordsKey words)).1 with
  | some v => rfl
  | none => cases hs : beh.storeOk <;> simp [hs]

end WordService
